import Mathlib

/-!
Verification development for the bbgo drift / elliottwave strategy engines and the
shared `GeneralOrderExecutor`.  Prices and quantities are embedded as rationals;
each definition is a direct shallow embedding of the corresponding Go function
(`ClosePosition`, `trailingCheck`, `smartCancel`, the kline handlers' exit
conditions, the `TradeCollector.OnTrade` callback, `CancelOrders`,
`SubmitOrders`, `GracefulCancelActiveOrderBook`).
-/

namespace BbgoModel

/-- Modelled from the spec: `types.Market` with its minimum-notional ("dust")
predicate `IsDust(quantity, price)` — "a position or order quantity whose
notional value is below the exchange's minimum tradeable amount".  The Go
implementation of `Market.IsDustQuantity` is not part of the analysed sources. -/
structure Market where
  minNotional : ℚ
deriving Repr, DecidableEq

/-- Modelled from the spec: dust iff the notional value `quantity * price` is
below the market's minimum tradeable amount. -/
def Market.IsDustQuantity (m : Market) (quantity price : ℚ) : Bool :=
  decide (quantity * price < m.minNotional)

/-!
Strategy-level `ClosePosition` retry loop (drift `strategy.go` lines 168-178,
identical in elliottwave `part_000` lines 134-145):

```go
for {
    if s.Market.IsDustQuantity(order.Quantity, price) {
        return nil
    }
    _, err := s.GeneralOrderExecutor.SubmitOrders(ctx, *order)
    if err != nil {
        order.Quantity = order.Quantity.Mul(fixedpoint.One.Sub(Delta))
        continue
    }
    return nil
}
```

The submission outcomes are an oracle `fails : ℕ → Bool` (attempt number ↦
whether `SubmitOrders` returned an error).  The embedding is fuel-indexed; the
first component is `some ()` when the Go loop returned `nil` within `fuel`
iterations and `none` when the fuel ran out, the second component is the list
of quantities that were actually submitted to the exchange, in order.
-/

/-- Shallow embedding of the `ClosePosition` shrink-retry loop. -/
def closeLoop (m : Market) (price delta : ℚ) (fails : ℕ → Bool) :
    ℕ → ℚ → ℕ → Option Unit × List ℚ
  | 0, _, _ => (none, [])
  | fuel + 1, q, i =>
    if m.IsDustQuantity q price then (some (), [])
    else if fails i then
      let r := closeLoop m price delta fails fuel (q * (1 - delta)) (i + 1)
      (r.1, q :: r.2)
    else (some (), [q])

/-- Delta constant of the drift strategy (`var Delta = fixedpoint.NewFromFloat(0.01)`). -/
def driftDelta : ℚ := 1 / 100

/-- Delta constant of the elliottwave strategy (`NewFromFloat(0.00001)`). -/
def ewoDelta : ℚ := 1 / 100000

lemma closeLoop_trace_not_dust (m : Market) (price delta : ℚ) (fails : ℕ → Bool) :
    ∀ fuel q i x, x ∈ (closeLoop m price delta fails fuel q i).2 →
      m.IsDustQuantity x price = false := by
  intro fuel
  induction fuel with
  | zero => intro q i x hx; simp [closeLoop] at hx
  | succ n ih =>
    intro q i x hx
    by_cases hd : m.IsDustQuantity q price
    · simp [closeLoop, hd] at hx
    · by_cases hf : fails i
      · simp only [closeLoop, hd, hf, Bool.false_eq_true, if_false, if_true,
          List.mem_cons] at hx
        rcases hx with rfl | hx
        · simpa using hd
        · exact ih _ _ x hx
      · simp only [closeLoop, hd, hf, Bool.false_eq_true, if_false,
          List.mem_singleton] at hx
        subst hx
        simpa using hd

lemma closeLoop_trace_head (m : Market) (price delta : ℚ) (fails : ℕ → Bool) :
    ∀ fuel q i, (closeLoop m price delta fails fuel q i).2 = [] ∨
      (closeLoop m price delta fails fuel q i).2.head? = some q := by
  intro fuel q i
  cases fuel with
  | zero => left; simp [closeLoop]
  | succ n =>
    by_cases hd : m.IsDustQuantity q price
    · left; simp [closeLoop, hd]
    · by_cases hf : fails i
      · right; simp [closeLoop, hd, hf]
      · right; simp [closeLoop, hd, hf]

lemma closeLoop_trace_chain (m : Market) (price delta : ℚ) (fails : ℕ → Bool)
    (hm : 0 < m.minNotional) (hp : 0 < price) (hd0 : 0 < delta) :
    ∀ fuel q i, List.Chain' (fun a b => b = a * (1 - delta) ∧ b < a)
      (closeLoop m price delta fails fuel q i).2 := by
  intro fuel
  induction fuel with
  | zero => intro q i; simp [closeLoop]
  | succ n ih =>
    intro q i
    by_cases hd : m.IsDustQuantity q price
    · simp [closeLoop, hd]
    · have hq : 0 < q := by
        have hnotlt : ¬ q * price < m.minNotional := by
          simpa [Market.IsDustQuantity] using hd
        push_neg at hnotlt
        have hqp : 0 < q * price := lt_of_lt_of_le hm hnotlt
        nlinarith
      by_cases hf : fails i
      · simp only [closeLoop, hd, hf, Bool.false_eq_true, if_false, if_true]
        rw [List.chain'_cons']
        refine ⟨?_, ih _ _⟩
        intro y hy
        rcases closeLoop_trace_head m price delta fails n (q * (1 - delta)) (i + 1) with
          hnil | hhead
        · simp [hnil] at hy
        · rw [hhead] at hy
          simp only [Option.mem_def, Option.some.injEq] at hy
          subst hy
          exact ⟨rfl, by nlinarith⟩
      · simp [closeLoop, hd, hf]

lemma closeLoop_terminates_of_pow (m : Market) (price delta : ℚ) (fails : ℕ → Bool) :
    ∀ n q i, q * price * (1 - delta) ^ n < m.minNotional →
      (closeLoop m price delta fails (n + 1) q i).1 = some () := by
  intro n
  induction n with
  | zero =>
    intro q i h
    have hd : m.IsDustQuantity q price = true := by
      simp only [Market.IsDustQuantity, decide_eq_true_eq]
      simpa using h
    simp [closeLoop, hd]
  | succ n ih =>
    intro q i h
    by_cases hd : m.IsDustQuantity q price
    · simp [closeLoop, hd]
    · by_cases hf : fails i
      · have h3 : q * (1 - delta) * price * (1 - delta) ^ n =
            q * price * (1 - delta) ^ (n + 1) := by ring
        have h2 : q * (1 - delta) * price * (1 - delta) ^ n < m.minNotional := by
          rw [h3]; exact h
        simp only [closeLoop, hd, hf, Bool.false_eq_true, if_false, if_true]
        exact ih (q * (1 - delta)) (i + 1) h2
      · simp [closeLoop, hd, hf]

/-- C1: for every starting quantity and current last price, the strategy-level
`ClosePosition` shrink-retry loop terminates returning `nil`: each failed
submission multiplies the order quantity by `(1 - Delta)` with `0 < Delta < 1`
and strictly decreases it, no quantity below the market's dust threshold is
ever submitted (the dust check precedes every submission), and the loop exits
with `nil` as soon as the quantity is dust at the current price. -/
theorem closePosition_shrink_retry_spec (m : Market) (price delta q : ℚ)
    (fails : ℕ → Bool) (hm : 0 < m.minNotional) (hd0 : 0 < delta)
    (hd1 : delta < 1) (hp : 0 < price) :
    ∃ fuel,
      (closeLoop m price delta fails fuel q 0).1 = some () ∧
      (∀ x ∈ (closeLoop m price delta fails fuel q 0).2,
        m.IsDustQuantity x price = false) ∧
      List.Chain' (fun a b => b = a * (1 - delta) ∧ b < a)
        (closeLoop m price delta fails fuel q 0).2 := by
  have hterm : ∃ n, q * price * (1 - delta) ^ n < m.minNotional := by
    rcases le_or_lt (q * price) 0 with hqp | hqp
    · exact ⟨0, by simpa using lt_of_le_of_lt hqp hm⟩
    · obtain ⟨n, hn⟩ := exists_pow_lt_of_lt_one (div_pos hm hqp)
        (by linarith : (1 : ℚ) - delta < 1)
      rw [lt_div_iff₀ hqp] at hn
      refine ⟨n, ?_⟩
      have h3 : q * price * (1 - delta) ^ n = (1 - delta) ^ n * (q * price) := by
        ring
      rw [h3]; exact hn
  obtain ⟨n, hn⟩ := hterm
  exact ⟨n + 1, closeLoop_terminates_of_pow m price delta fails n q 0 hn,
    fun x hx => closeLoop_trace_not_dust m price delta fails (n + 1) q 0 x hx,
    closeLoop_trace_chain m price delta fails hm hp hd0 (n + 1) q 0⟩

/-- Witness for C1: a concrete run (minNotional 1, price 2, delta 1/2, starting
quantity 4, every submission failing). -/
theorem closePosition_shrink_retry_spec_witness :
    (0 : ℚ) < (Market.mk 1).minNotional ∧ (0 : ℚ) < 1/2 ∧ (1/2 : ℚ) < 1 ∧
      (0 : ℚ) < 2 ∧
      ∃ fuel,
        (closeLoop (Market.mk 1) 2 (1/2) (fun _ => true) fuel 4 0).1 = some () ∧
        (∀ x ∈ (closeLoop (Market.mk 1) 2 (1/2) (fun _ => true) fuel 4 0).2,
          (Market.mk 1).IsDustQuantity x 2 = false) ∧
        List.Chain' (fun a b => b = a * (1 - (1/2 : ℚ)) ∧ b < a)
          (closeLoop (Market.mk 1) 2 (1/2) (fun _ => true) fuel 4 0).2 :=
  ⟨by norm_num, by norm_num, by norm_num, by norm_num,
    closePosition_shrink_retry_spec (Market.mk 1) 2 (1/2) 4 (fun _ => true)
      (by norm_num [Market.mk]) (by norm_num) (by norm_num) (by norm_num)⟩

/-!
Price-watermark state shared by both strategies: fields `buyPrice`,
`sellPrice`, `highestPrice`, `lowestPrice` of the `Strategy` struct.
-/

/-- Watermark/reference-price fields of the strategy state. -/
structure PriceState where
  buyPrice : ℚ
  sellPrice : ℚ
  highestPrice : ℚ
  lowestPrice : ℚ
deriving Repr, DecidableEq

/-- Watermark update at the head of `trailingCheck` and in the book-ticker
callback: raise `highestPrice` when positive and below `price`, lower
`lowestPrice` when positive and above `price`. -/
def updateWatermarks (st : PriceState) (price : ℚ) : PriceState :=
  let st1 := if 0 < st.highestPrice ∧ st.highestPrice < price then
      { st with highestPrice := price } else st
  if 0 < st1.lowestPrice ∧ price < st1.lowestPrice then
    { st1 with lowestPrice := price } else st1

/-- Tier scan of `trailingCheck` (drift `strategy.go` lines 312-324, identical
in elliottwave): the Go loop runs `i` from `len(TrailingCallbackRate)-1` down
to `0`; here the argument is the number of indices still to scan, so a call
with `cb.length` starts at the highest index.  Go's `x > y` is written
`y < x`. -/
def trailingScan (st : PriceState) (price : ℚ) (isShort : Bool)
    (cb act : List ℚ) : ℕ → Bool
  | 0 => false
  | k + 1 =>
    let r := cb.getD k 0
    let a := act.getD k 0
    if isShort then
      if a < (st.sellPrice - st.lowestPrice) / st.lowestPrice then
        decide (r < (price - st.lowestPrice) / st.lowestPrice)
      else trailingScan st price isShort cb act k
    else
      if a < (st.highestPrice - st.buyPrice) / st.buyPrice then
        decide (r < (st.highestPrice - price) / price)
      else trailingScan st price isShort cb act k

/-- Shallow embedding of `trailingCheck`: watermark update, then the tier scan
from the highest index. -/
def trailingCheck (st : PriceState) (price : ℚ) (isShort : Bool)
    (cb act : List ℚ) : PriceState × Bool :=
  let st1 := updateWatermarks st price
  (st1, trailingScan st1 price isShort cb act cb.length)

lemma trailingScan_long_none (st : PriceState) (price : ℚ) (cb act : List ℚ) :
    ∀ n, (∀ i, i < n →
        ¬(act.getD i 0 < (st.highestPrice - st.buyPrice) / st.buyPrice)) →
      trailingScan st price false cb act n = false := by
  intro n
  induction n with
  | zero => intro _; simp [trailingScan]
  | succ k ih =>
    intro h
    have hk := h k (Nat.lt_succ_self k)
    simp only [trailingScan, Bool.false_eq_true, if_false, if_neg hk]
    exact ih fun i hi => h i (Nat.lt_succ_of_lt hi)

lemma trailingScan_long_first (st : PriceState) (price : ℚ) (cb act : List ℚ) :
    ∀ n j, j < n →
      act.getD j 0 < (st.highestPrice - st.buyPrice) / st.buyPrice →
      (∀ i, j < i → i < n →
        ¬(act.getD i 0 < (st.highestPrice - st.buyPrice) / st.buyPrice)) →
      trailingScan st price false cb act n =
        decide (cb.getD j 0 < (st.highestPrice - price) / price) := by
  intro n
  induction n with
  | zero => intro j hj; exact absurd hj (Nat.not_lt_zero j)
  | succ k ih =>
    intro j hj hact hmax
    rcases Nat.lt_succ_iff_lt_or_eq.mp hj with hlt | rfl
    · have hk : ¬(act.getD k 0 <
          (st.highestPrice - st.buyPrice) / st.buyPrice) :=
        hmax k hlt (Nat.lt_succ_self k)
      simp only [trailingScan, Bool.false_eq_true, if_false, if_neg hk]
      exact ih j hlt hact fun i hji hik => hmax i hji (Nat.lt_succ_of_lt hik)
    · simp only [trailingScan, Bool.false_eq_true, if_false, if_pos hact]

lemma trailingScan_short_none (st : PriceState) (price : ℚ) (cb act : List ℚ) :
    ∀ n, (∀ i, i < n →
        ¬(act.getD i 0 < (st.sellPrice - st.lowestPrice) / st.lowestPrice)) →
      trailingScan st price true cb act n = false := by
  intro n
  induction n with
  | zero => intro _; simp [trailingScan]
  | succ k ih =>
    intro h
    have hk := h k (Nat.lt_succ_self k)
    simp only [trailingScan, if_true, if_neg hk]
    exact ih fun i hi => h i (Nat.lt_succ_of_lt hi)

lemma trailingScan_short_first (st : PriceState) (price : ℚ) (cb act : List ℚ) :
    ∀ n j, j < n →
      act.getD j 0 < (st.sellPrice - st.lowestPrice) / st.lowestPrice →
      (∀ i, j < i → i < n →
        ¬(act.getD i 0 < (st.sellPrice - st.lowestPrice) / st.lowestPrice)) →
      trailingScan st price true cb act n =
        decide (cb.getD j 0 < (price - st.lowestPrice) / st.lowestPrice) := by
  intro n
  induction n with
  | zero => intro j hj; exact absurd hj (Nat.not_lt_zero j)
  | succ k ih =>
    intro j hj hact hmax
    rcases Nat.lt_succ_iff_lt_or_eq.mp hj with hlt | rfl
    · have hk : ¬(act.getD k 0 <
          (st.sellPrice - st.lowestPrice) / st.lowestPrice) :=
        hmax k hlt (Nat.lt_succ_self k)
      simp only [trailingScan, if_true, if_neg hk]
      exact ih j hlt hact fun i hji hik => hmax i hji (Nat.lt_succ_of_lt hik)
    · simp only [trailingScan, if_true, if_pos hact]

/-- C2 counterexample: with tiers `[(0.01, 0.002), (0.03, 0.01)]`, a long
entered at 100 and watermark 103, the 3% excursion does not strictly exceed
tier index 1's activation ratio 0.03, so tier index 0 governs and the 0.98%
retracement at price 102 already exceeds its 0.002 callback: `trailingCheck`
returns `true` at price 102, not `false` as the claim states. -/
theorem trailingCheck_at_102_counterexample :
    (trailingCheck ⟨100, 0, 103, 0⟩ 102 false [1/500, 1/100]
      [1/100, 3/100]).2 = true := by
  norm_num [trailingCheck, updateWatermarks, trailingScan, List.getD]

/-- C2 amended: `trailingCheck` scans tiers from the highest index down to 0
and returns, for the first (highest-index) tier whose activation ratio is
strictly exceeded by the favorable excursion between the entry reference price
and the watermark, whether the retracement from the watermark exceeds that
tier's callback rate; no activated tier gives `false`.  With tiers
`[(0.01, 0.002), (0.03, 0.01)]` for a long entered at 100 with watermark 103,
the excursion 0.03 does not strictly exceed tier index 1's activation, so tier
index 0 governs and `trailingCheck` returns `true` both at price 102 and at
price 101.5. -/
theorem trailingCheck_tier_scan_spec :
    (∀ st price cb act n,
      (∀ i, i < n →
        ¬(act.getD i 0 < (st.highestPrice - st.buyPrice) / st.buyPrice)) →
      trailingScan st price false cb act n = false) ∧
    (∀ st price cb act n j, j < n →
      act.getD j 0 < (st.highestPrice - st.buyPrice) / st.buyPrice →
      (∀ i, j < i → i < n →
        ¬(act.getD i 0 < (st.highestPrice - st.buyPrice) / st.buyPrice)) →
      trailingScan st price false cb act n =
        decide (cb.getD j 0 < (st.highestPrice - price) / price)) ∧
    (∀ st price cb act n,
      (∀ i, i < n →
        ¬(act.getD i 0 < (st.sellPrice - st.lowestPrice) / st.lowestPrice)) →
      trailingScan st price true cb act n = false) ∧
    (∀ st price cb act n j, j < n →
      act.getD j 0 < (st.sellPrice - st.lowestPrice) / st.lowestPrice →
      (∀ i, j < i → i < n →
        ¬(act.getD i 0 < (st.sellPrice - st.lowestPrice) / st.lowestPrice)) →
      trailingScan st price true cb act n =
        decide (cb.getD j 0 < (price - st.lowestPrice) / st.lowestPrice)) ∧
    (trailingCheck ⟨100, 0, 103, 0⟩ 102 false [1/500, 1/100]
      [1/100, 3/100]).2 = true ∧
    (trailingCheck ⟨100, 0, 103, 0⟩ (203/2) false [1/500, 1/100]
      [1/100, 3/100]).2 = true :=
  ⟨trailingScan_long_none, trailingScan_long_first,
   trailingScan_short_none, trailingScan_short_first,
   by norm_num [trailingCheck, updateWatermarks, trailingScan, List.getD],
   by norm_num [trailingCheck, updateWatermarks, trailingScan, List.getD]⟩

/-- Witness for C2's amended theorem at the claim's concrete tiers. -/
theorem trailingCheck_tier_scan_spec_witness :
    (0 : ℕ) < 2 ∧
    ([1/100, 3/100] : List ℚ).getD 0 0 <
      ((⟨100, 0, 103, 0⟩ : PriceState).highestPrice -
        (⟨100, 0, 103, 0⟩ : PriceState).buyPrice) /
        (⟨100, 0, 103, 0⟩ : PriceState).buyPrice ∧
    trailingScan ⟨100, 0, 103, 0⟩ 102 false [1/500, 1/100] [1/100, 3/100] 2 =
      decide (([1/500, 1/100] : List ℚ).getD 0 0 <
        ((⟨100, 0, 103, 0⟩ : PriceState).highestPrice - 102) / 102) :=
  ⟨by norm_num, by norm_num [List.getD],
   trailingCheck_tier_scan_spec.2.1 ⟨100, 0, 103, 0⟩ 102 [1/500, 1/100]
     [1/100, 3/100] 2 0 (by norm_num) (by norm_num [List.getD])
     (by intro i h1 h2; interval_cases i <;> norm_num [List.getD])⟩

/-!
Orders and the pending-order-age map `orderPendingCounter : map[uint64]int`.
The map is embedded as an association list with Go's zero-value lookup.
-/

/-- Order status (`types.OrderStatus`), restricted to the values the strategies
inspect. -/
inductive OrderStatus
  | statusNew
  | partFilled
  | filled
  | canceled
  | rejected
deriving Repr, DecidableEq

/-- Order side (`types.SideType`); the strategies panic on any other side. -/
inductive Side
  | buy
  | sell
deriving Repr, DecidableEq

/-- The order fields read by `smartCancel`. -/
structure Order where
  orderID : ℕ
  side : Side
  price : ℚ
  status : OrderStatus
deriving Repr, DecidableEq

/-- Go map read `s.orderPendingCounter[id]` (zero value when absent). -/
def lookupCounter : List (ℕ × ℤ) → ℕ → ℤ
  | [], _ => 0
  | e :: rest, oid => if e.1 = oid then e.2 else lookupCounter rest oid

/-- Go `delete(s.orderPendingCounter, id)`. -/
def eraseCounter (pc : List (ℕ × ℤ)) (oid : ℕ) : List (ℕ × ℤ) :=
  pc.filter (fun e => decide (e.1 ≠ oid))

/-- Ambient values read by the drift `smartCancel`: the bar clock, the
configured budget, current price, the stdev bands and `drift := s.drift1m.Array(2)`. -/
structure DriftEnv where
  minutesCounter : ℤ
  pendingMinutes : ℤ
  pricef : ℚ
  stdevHigh : ℚ
  stdevLow : ℚ
  drift0 : ℚ
  drift1 : ℚ
deriving Repr, DecidableEq

/-- Per-order cancellation test of the drift `smartCancel` loop body
(`strategy.go` lines 263-288).  Terminal orders are skipped (`continue`); an
aged order is additionally kept when the 1m-drift momentum favors its side
(`drift[1] < drift[0]` for a buy, `drift[1] > drift[0]` for a sell); otherwise
the volatility-scaled price-distance tests apply.  Go's `x > y` is `y < x`. -/
def driftOrderToCancel (env : DriftEnv) (pc : List (ℕ × ℤ)) (o : Order) : Bool :=
  if o.status ≠ OrderStatus.statusNew ∧ o.status ≠ OrderStatus.partFilled then
    false
  else if env.pendingMinutes < env.minutesCounter - lookupCounter pc o.orderID then
    if o.side = Side.buy ∧ env.drift1 < env.drift0 then false
    else if o.side = Side.sell ∧ env.drift0 < env.drift1 then false
    else true
  else if o.side = Side.buy then
    decide (o.price + env.stdevHigh * 2 ≤ env.pricef)
  else
    decide (env.pricef ≤ o.price - env.stdevLow * 2)

/-- Result of the drift `smartCancel`: the returned pending count, whether the
`GracefulCancel` call errored, whether all orders were cancelled, and the
pending-order-age map afterwards. -/
structure DriftCancelResult where
  numPending : ℕ
  errored : Bool
  cancelledAll : Bool
  pendingCounter : List (ℕ × ℤ)
deriving Repr, DecidableEq

/-- Shallow embedding of the drift `smartCancel` (`strategy.go` lines 254-302):
`toCancel` is accumulated over all outstanding orders and, when set, a single
`GracefulCancel` (outcome `cancelOk`) cancels everything; only on its success
are all pending-counter entries deleted. -/
def smartCancelDrift (env : DriftEnv) (pc : List (ℕ × ℤ)) (orders : List Order)
    (cancelOk : Bool) : DriftCancelResult :=
  if 0 < orders.length then
    if orders.any (driftOrderToCancel env pc) then
      if cancelOk then
        ⟨0, false, true, orders.foldl (fun acc o => eraseCounter acc o.orderID) pc⟩
      else ⟨0, true, false, pc⟩
    else ⟨orders.length, false, false, pc⟩
  else ⟨orders.length, false, false, pc⟩

/-- Ambient values read by the elliottwave `smartCancel`. -/
structure EwEnv where
  minutesCounter : ℤ
  pendingMinutes : ℤ
  pricef : ℚ
  atr : ℚ
deriving Repr, DecidableEq

/-- Per-order cancellation test of the elliottwave `smartCancel`
(`part_000` lines 186-199): age uses `>=` and has no momentum guard. -/
def ewOrderToCancel (env : EwEnv) (pc : List (ℕ × ℤ)) (o : Order) : Bool :=
  if env.pendingMinutes ≤ env.minutesCounter - lookupCounter pc o.orderID then
    true
  else if o.side = Side.buy then
    decide (o.price + env.atr * 2 ≤ env.pricef)
  else
    decide (env.pricef ≤ o.price - env.atr * 2)

/-- Loop state of the elliottwave `smartCancel`: the `left` counter, the ids
cancelled so far and the pending-counter map. -/
structure EwCancelState where
  left : ℕ
  cancelled : List ℕ
  pendingCounter : List (ℕ × ℤ)
deriving Repr, DecidableEq

/-- One iteration of the elliottwave `smartCancel` loop (`part_000` lines
180-211); `cancelOk` is the outcome of `GracefulCancelOrder` per order id.
Terminal orders are skipped; a successful cancel deletes the order's
pending-counter entry; a kept order increments `left`. -/
def smartCancelEwStep (env : EwEnv) (cancelOk : ℕ → Bool)
    (st : EwCancelState) (o : Order) : EwCancelState :=
  if o.status ≠ OrderStatus.statusNew ∧ o.status ≠ OrderStatus.partFilled then st
  else if ewOrderToCancel env st.pendingCounter o then
    if cancelOk o.orderID then
      { st with cancelled := st.cancelled ++ [o.orderID],
                pendingCounter := eraseCounter st.pendingCounter o.orderID }
    else st
  else { st with left := st.left + 1 }

/-- Shallow embedding of the elliottwave `smartCancel`; the field `left` of the
result is the function's return value. -/
def smartCancelEw (env : EwEnv) (pc : List (ℕ × ℤ)) (orders : List Order)
    (cancelOk : ℕ → Bool) : EwCancelState :=
  orders.foldl (smartCancelEwStep env cancelOk) ⟨0, [], pc⟩

lemma lookupCounter_erase_ne (a b : ℕ) (h : a ≠ b) :
    ∀ pc : List (ℕ × ℤ), lookupCounter (eraseCounter pc a) b = lookupCounter pc b := by
  intro pc
  induction pc with
  | nil => simp [lookupCounter, eraseCounter]
  | cons e rest ih =>
    by_cases he : e.1 = a
    · have hne : e.1 ≠ b := by rw [he]; exact h
      simp only [eraseCounter, List.filter_cons, he] at ih ⊢
      rw [if_neg (by simp)]
      simp only [lookupCounter, hne, if_false]
      simpa [eraseCounter] using ih
    · simp only [eraseCounter, List.filter_cons] at ih ⊢
      rw [if_pos (by simpa using he)]
      by_cases hb : e.1 = b
      · simp [lookupCounter, hb]
      · simp only [lookupCounter, hb, if_false]
        simpa [eraseCounter] using ih

lemma smartCancelEw_cancelled_mono (env : EwEnv) (cancelOk : ℕ → Bool) :
    ∀ (orders : List Order) (st : EwCancelState) (x : ℕ), x ∈ st.cancelled →
      x ∈ (orders.foldl (smartCancelEwStep env cancelOk) st).cancelled := by
  intro orders
  induction orders with
  | nil => intro st x hx; simpa using hx
  | cons o rest ih =>
    intro st x hx
    rw [List.foldl_cons]
    apply ih
    unfold smartCancelEwStep
    split_ifs <;> simp_all

lemma smartCancelEw_aged_cancelled (env : EwEnv) (cancelOk : ℕ → Bool) :
    ∀ (orders : List Order) (st : EwCancelState) (o : Order), o ∈ orders →
      (orders.map Order.orderID).Nodup →
      (o.status = OrderStatus.statusNew ∨ o.status = OrderStatus.partFilled) →
      cancelOk o.orderID = true →
      env.pendingMinutes ≤
        env.minutesCounter - lookupCounter st.pendingCounter o.orderID →
      o.orderID ∈ (orders.foldl (smartCancelEwStep env cancelOk) st).cancelled := by
  intro orders
  induction orders with
  | nil => intro st o h; simp at h
  | cons o2 rest ih =>
    intro st o hmem hnodup hstat hok hage
    simp only [List.map_cons, List.nodup_cons] at hnodup
    rcases List.mem_cons.mp hmem with rfl | hmem2
    · have hterm : ¬(o.status ≠ OrderStatus.statusNew ∧
          o.status ≠ OrderStatus.partFilled) := by
        rcases hstat with h | h <;> simp [h]
      have htc : ewOrderToCancel env st.pendingCounter o = true := by
        unfold ewOrderToCancel
        rw [if_pos hage]
      have hstep : smartCancelEwStep env cancelOk st o =
          { st with cancelled := st.cancelled ++ [o.orderID],
                    pendingCounter := eraseCounter st.pendingCounter o.orderID } := by
        unfold smartCancelEwStep
        rw [if_neg hterm, htc, if_pos rfl, if_pos hok]
      rw [List.foldl_cons, hstep]
      exact smartCancelEw_cancelled_mono env cancelOk rest _ _ (by simp)
    · have hne : o2.orderID ≠ o.orderID := by
        intro hab
        exact hnodup.1 (hab ▸ List.mem_map_of_mem Order.orderID hmem2)
      have hlook : lookupCounter
          (smartCancelEwStep env cancelOk st o2).pendingCounter o.orderID =
          lookupCounter st.pendingCounter o.orderID := by
        unfold smartCancelEwStep
        split_ifs <;>
          simp [lookupCounter_erase_ne o2.orderID o.orderID hne st.pendingCounter]
      rw [List.foldl_cons]
      exact ih _ o hmem2 hnodup.2 hstat hok (by rw [hlook]; exact hage)

lemma smartCancelDrift_aged_cancels_all (env : DriftEnv) (pc : List (ℕ × ℤ))
    (orders : List Order) (o : Order) (hmem : o ∈ orders)
    (hstat : o.status = OrderStatus.statusNew ∨ o.status = OrderStatus.partFilled)
    (hage : env.pendingMinutes < env.minutesCounter - lookupCounter pc o.orderID)
    (hbuy : ¬(o.side = Side.buy ∧ env.drift1 < env.drift0))
    (hsell : ¬(o.side = Side.sell ∧ env.drift0 < env.drift1)) :
    (smartCancelDrift env pc orders true).cancelledAll = true ∧
    (smartCancelDrift env pc orders true).numPending = 0 := by
  have hterm : ¬(o.status ≠ OrderStatus.statusNew ∧
      o.status ≠ OrderStatus.partFilled) := by
    rcases hstat with h | h <;> simp [h]
  have hto : driftOrderToCancel env pc o = true := by
    unfold driftOrderToCancel
    rw [if_neg hterm, if_pos hage, if_neg hbuy, if_neg hsell]
  have hany : orders.any (driftOrderToCancel env pc) = true :=
    List.any_eq_true.mpr ⟨o, hmem, hto⟩
  have hlen : 0 < orders.length :=
    List.length_pos.mpr (by rintro rfl; simp at hmem)
  simp [smartCancelDrift, hlen, hany]

/-- C3 counterexample: in the drift `smartCancel`, a resting buy order whose
age (100 bars) far exceeds the budget (10) is nevertheless not cancelled,
because the 1m-drift momentum guard (`drift[1] < drift[0]`) skips it; the
function reports it as still pending. -/
theorem smartCancel_aged_buy_kept_counterexample :
    smartCancelDrift ⟨100, 10, 201/2, 1, 1, 1, 0⟩ [(1, 0)]
      [⟨1, Side.buy, 100, OrderStatus.statusNew⟩] true =
      ⟨1, false, false, [(1, 0)]⟩ := by
  norm_num [smartCancelDrift, driftOrderToCancel, lookupCounter,
    List.any_cons, List.any_nil]

/-- C3 amended: in the elliottwave `smartCancel` every outstanding order in
status New or PartiallyFilled whose age reaches the `PendingMinutes` budget is
cancelled (when its cancel call succeeds) regardless of the price-distance
condition; in the drift `smartCancel` an aged outstanding order triggers
cancellation of all outstanding orders unless the 1m-drift momentum guard
holds for its side (buy kept when `drift[1] < drift[0]`, sell kept when
`drift[1] > drift[0]`). -/
theorem smartCancel_aged_spec :
    (∀ (env : EwEnv) (cancelOk : ℕ → Bool) (pc : List (ℕ × ℤ))
      (orders : List Order) (o : Order), o ∈ orders →
      (orders.map Order.orderID).Nodup →
      (o.status = OrderStatus.statusNew ∨ o.status = OrderStatus.partFilled) →
      cancelOk o.orderID = true →
      env.pendingMinutes ≤ env.minutesCounter - lookupCounter pc o.orderID →
      o.orderID ∈ (smartCancelEw env pc orders cancelOk).cancelled) ∧
    (∀ (env : DriftEnv) (pc : List (ℕ × ℤ)) (orders : List Order) (o : Order),
      o ∈ orders →
      (o.status = OrderStatus.statusNew ∨ o.status = OrderStatus.partFilled) →
      env.pendingMinutes < env.minutesCounter - lookupCounter pc o.orderID →
      ¬(o.side = Side.buy ∧ env.drift1 < env.drift0) →
      ¬(o.side = Side.sell ∧ env.drift0 < env.drift1) →
      (smartCancelDrift env pc orders true).cancelledAll = true ∧
      (smartCancelDrift env pc orders true).numPending = 0) :=
  ⟨fun env cancelOk pc orders o hmem hnodup hstat hok hage =>
    smartCancelEw_aged_cancelled env cancelOk orders ⟨0, [], pc⟩ o hmem hnodup
      hstat hok hage,
   fun env pc orders o hmem hstat hage hbuy hsell =>
    smartCancelDrift_aged_cancels_all env pc orders o hmem hstat hage hbuy hsell⟩

/-- Witness for C3's amended theorem: a single aged buy order in the
elliottwave variant is cancelled. -/
theorem smartCancel_aged_spec_witness :
    (⟨7, Side.buy, 100, OrderStatus.statusNew⟩ : Order) ∈
      [(⟨7, Side.buy, 100, OrderStatus.statusNew⟩ : Order)] ∧
    (7 : ℕ) ∈ (smartCancelEw ⟨100, 10, 201/2, 1⟩ [(7, 0)]
      [⟨7, Side.buy, 100, OrderStatus.statusNew⟩] (fun _ => true)).cancelled :=
  ⟨by simp,
   smartCancel_aged_spec.1 ⟨100, 10, 201/2, 1⟩ (fun _ => true) [(7, 0)]
     [⟨7, Side.buy, 100, OrderStatus.statusNew⟩]
     ⟨7, Side.buy, 100, OrderStatus.statusNew⟩ (by simp) (by simp)
     (Or.inl rfl) rfl (by norm_num [lookupCounter])⟩

/-!
Exit conditions of the bar-close handlers.  Go's `&&` binds tighter than
`||`, which matters for the elliottwave `klineHandler` (part_000 lines
477-478); the drift handler (strategy.go 701-704) and the elliottwave
`klineHandler1m` (part_000 lines 420-423) parenthesize the disjunction.
-/

/-- Drift `klineHandler` exit condition for shorts (strategy.go 701-702). -/
def exitShortDriftK (st : PriceState) (stoploss highf pricef : ℚ)
    (shortCond longCond : Bool) (cb act : List ℚ) : Bool :=
  decide (0 < st.sellPrice) && !shortCond && !longCond &&
    (decide (st.sellPrice * (1 + stoploss) ≤ highf) ||
      (trailingCheck st pricef true cb act).2)

/-- Drift `klineHandler` exit condition for longs (strategy.go 703-704). -/
def exitLongDriftK (st : PriceState) (stoploss lowf pricef : ℚ)
    (longCond shortCond : Bool) (cb act : List ℚ) : Bool :=
  decide (0 < st.buyPrice) && !longCond && !shortCond &&
    (decide (lowf ≤ st.buyPrice * (1 - stoploss)) ||
      (trailingCheck st pricef false cb act).2)

/-- Elliottwave `klineHandler1m` exit condition for shorts (part_000 420-421). -/
def exitShortEw1m (st : PriceState) (stoploss atr highf : ℚ)
    (cb act : List ℚ) : Bool :=
  decide (0 < st.sellPrice) &&
    (decide (st.sellPrice * (1 + stoploss) ≤ highf) ||
     decide (st.sellPrice + atr ≤ highf) ||
     (trailingCheck st highf true cb act).2)

/-- Elliottwave `klineHandler1m` exit condition for longs (part_000 422-423). -/
def exitLongEw1m (st : PriceState) (stoploss atr lowf : ℚ)
    (cb act : List ℚ) : Bool :=
  decide (0 < st.buyPrice) &&
    (decide (lowf ≤ st.buyPrice * (1 - stoploss)) ||
     decide (lowf ≤ st.buyPrice - atr) ||
     (trailingCheck st lowf false cb act).2)

/-- Elliottwave `klineHandler` exit condition for shorts (part_000 line 477);
with Go precedence the last two disjuncts are not guarded by `sellPrice > 0`. -/
def exitShortEwK (st : PriceState) (stoploss atr highf : ℚ) (shortCond : Bool)
    (cb act : List ℚ) : Bool :=
  (decide (0 < st.sellPrice) && !shortCond &&
    decide (st.sellPrice * (1 + stoploss) ≤ highf)) ||
  decide (st.sellPrice + atr ≤ highf) ||
  (trailingCheck st highf true cb act).2

/-- Elliottwave `klineHandler` exit condition for longs (part_000 line 478);
with Go precedence the last two disjuncts are not guarded by `buyPrice > 0`. -/
def exitLongEwK (st : PriceState) (stoploss atr lowf : ℚ) (longCond : Bool)
    (cb act : List ℚ) : Bool :=
  (decide (0 < st.buyPrice) && !longCond &&
    decide (lowf ≤ st.buyPrice * (1 - stoploss))) ||
  decide (lowf ≤ st.buyPrice - atr) ||
  (trailingCheck st lowf false cb act).2

/-- C4: bug witness.  In the elliottwave `klineHandler` the exit condition for
shorts is true at a flat state (`buyPrice = sellPrice = 0`) because the
`sellPrice+atr <= highf` disjunct is unguarded (missing parentheses), whereas
the correctly parenthesized elliottwave `klineHandler1m` and drift
`klineHandler` conditions are false on the same flat state. -/
theorem exit_conditions_flat_state_bug :
    exitShortEwK ⟨0, 0, 0, 0⟩ (1/20) 1 100 false [] [] = true ∧
    (⟨0, 0, 0, 0⟩ : PriceState).sellPrice = 0 ∧
    exitShortEw1m ⟨0, 0, 0, 0⟩ (1/20) 1 100 [] [] = false ∧
    exitLongEw1m ⟨0, 0, 0, 0⟩ (1/20) 1 100 [] [] = false ∧
    exitShortDriftK ⟨0, 0, 0, 0⟩ (1/20) 100 100 false false [] [] = false ∧
    exitLongDriftK ⟨0, 0, 0, 0⟩ (1/20) 100 100 false false [] [] = false := by
  norm_num [exitShortEwK, exitShortEw1m, exitLongEw1m, exitShortDriftK,
    exitLongDriftK, trailingCheck, updateWatermarks, trailingScan]

/-!
`TradeCollector().OnTrade` callback: watermark/reference-price update on every
fill (drift strategy.go lines 878-925, elliottwave part_000 lines 335-350).
The position classification at the trade price (`s.p.IsDust(trade.Price)`,
`s.p.IsLong()`, `s.p.IsShort()`) enters as boolean flags.
-/

/-- Order tags the drift OnTrade callback distinguishes (any other tag
panics); `empty` is the `""` tag of exit trades. -/
inductive Tag
  | close
  | empty
  | long
  | short
deriving Repr, DecidableEq

/-- Shallow embedding of the drift OnTrade watermark logic (strategy.go
881-924), fields in order `buyPrice, sellPrice, highestPrice, lowestPrice`. -/
def onTradeDrift (st : PriceState) (tag : Tag) (tradePrice : ℚ)
    (isDust isLong isShort : Bool) : PriceState :=
  match tag with
  | Tag.close | Tag.empty =>
    if isDust then ⟨0, 0, 0, 0⟩
    else if isLong then ⟨tradePrice, 0, tradePrice, 0⟩
    else ⟨0, tradePrice, 0, tradePrice⟩
  | Tag.long =>
    if isDust then ⟨0, 0, 0, 0⟩
    else if isLong then ⟨tradePrice, 0, tradePrice, 0⟩
    else st
  | Tag.short =>
    if isDust then ⟨0, 0, 0, 0⟩
    else if isShort then ⟨0, tradePrice, 0, tradePrice⟩
    else st

/-- Shallow embedding of the elliottwave OnTrade watermark logic (part_000
335-350); it does not branch on the order tag. -/
def onTradeEw (st : PriceState) (tradePrice : ℚ) (isDust isLong : Bool) :
    PriceState :=
  if isDust then ⟨0, 0, 0, 0⟩
  else if isLong then ⟨tradePrice, 0, tradePrice, 0⟩
  else ⟨0, tradePrice, 0, tradePrice⟩

/-- Watermark update against a bar's `lowf`/`highf` as done at the top of the
kline handlers (drift strategy.go 584-589 and 668-673, elliottwave part_000
414-419). -/
def updateWatermarksHL (st : PriceState) (lowf highf : ℚ) : PriceState :=
  let st1 := if 0 < st.lowestPrice ∧ lowf < st.lowestPrice then
      { st with lowestPrice := lowf } else st
  if 0 < st1.highestPrice ∧ st1.highestPrice < highf then
    { st1 with highestPrice := highf } else st1

/-- C5 counterexample: with a long open (`buyPrice = 100 > 0`, not dust) and
watermark `highestPrice = 110`, a further fill at 105 (tag "long", position
still long) resets `highestPrice` to 105 — the watermark strictly decreases
across a fill event. -/
theorem onTrade_lowers_highestPrice_counterexample :
    0 < (⟨100, 0, 110, 0⟩ : PriceState).buyPrice ∧
    (onTradeDrift ⟨100, 0, 110, 0⟩ Tag.long 105 false true false).highestPrice <
      (⟨100, 0, 110, 0⟩ : PriceState).highestPrice := by
  norm_num [onTradeDrift]

/-- C5 amended: across price observations `highestPrice` is non-decreasing and
`lowestPrice` non-increasing (single-price form, bar low/high form, and any
sequence of observations); a fill event while the position stays long instead
resets both reference price and watermark to the fill price (which may be
below the previous watermark); and a fill that leaves the position at dust
resets all four fields to 0 together. -/
lemma updateWatermarks_mono (st : PriceState) (price : ℚ) :
    st.highestPrice ≤ (updateWatermarks st price).highestPrice ∧
    (updateWatermarks st price).lowestPrice ≤ st.lowestPrice := by
  unfold updateWatermarks
  by_cases h1 : 0 < st.highestPrice ∧ st.highestPrice < price
  · rw [if_pos h1]
    by_cases h2 : 0 < st.lowestPrice ∧ price < st.lowestPrice
    · rw [if_pos h2]
      exact ⟨le_of_lt h1.2, le_of_lt h2.2⟩
    · rw [if_neg h2]
      exact ⟨le_of_lt h1.2, le_refl _⟩
  · rw [if_neg h1]
    by_cases h2 : 0 < st.lowestPrice ∧ price < st.lowestPrice
    · rw [if_pos h2]
      exact ⟨le_refl _, le_of_lt h2.2⟩
    · rw [if_neg h2]
      exact ⟨le_refl _, le_refl _⟩

lemma updateWatermarksHL_mono (st : PriceState) (lowf highf : ℚ) :
    st.highestPrice ≤ (updateWatermarksHL st lowf highf).highestPrice ∧
    (updateWatermarksHL st lowf highf).lowestPrice ≤ st.lowestPrice := by
  unfold updateWatermarksHL
  by_cases h1 : 0 < st.lowestPrice ∧ lowf < st.lowestPrice
  · rw [if_pos h1]
    by_cases h2 : 0 < st.highestPrice ∧ st.highestPrice < highf
    · rw [if_pos h2]
      exact ⟨le_of_lt h2.2, le_of_lt h1.2⟩
    · rw [if_neg h2]
      exact ⟨le_refl _, le_of_lt h1.2⟩
  · rw [if_neg h1]
    by_cases h2 : 0 < st.highestPrice ∧ st.highestPrice < highf
    · rw [if_pos h2]
      exact ⟨le_of_lt h2.2, le_refl _⟩
    · rw [if_neg h2]
      exact ⟨le_refl _, le_refl _⟩

theorem watermark_monotonicity_spec :
    (∀ st price, st.highestPrice ≤ (updateWatermarks st price).highestPrice ∧
      (updateWatermarks st price).lowestPrice ≤ st.lowestPrice) ∧
    (∀ st lowf highf,
      st.highestPrice ≤ (updateWatermarksHL st lowf highf).highestPrice ∧
      (updateWatermarksHL st lowf highf).lowestPrice ≤ st.lowestPrice) ∧
    (∀ st (prices : List ℚ),
      st.highestPrice ≤ (prices.foldl updateWatermarks st).highestPrice ∧
      (prices.foldl updateWatermarks st).lowestPrice ≤ st.lowestPrice) ∧
    (∀ st tradePrice, onTradeDrift st Tag.long tradePrice false true false =
      ⟨tradePrice, 0, tradePrice, 0⟩) ∧
    (∀ st tag tradePrice isLong isShort,
      onTradeDrift st tag tradePrice true isLong isShort = ⟨0, 0, 0, 0⟩) := by
  have hstep := updateWatermarks_mono
  refine ⟨hstep, fun st lowf highf => updateWatermarksHL_mono st lowf highf,
    ?_, ?_, ?_⟩
  · intro st prices
    induction prices generalizing st with
    | nil => simp
    | cons p rest ih =>
      rw [List.foldl_cons]
      rcases hstep st p with ⟨hh, hl⟩
      rcases ih (updateWatermarks st p) with ⟨hh2, hl2⟩
      exact ⟨le_trans hh hh2, le_trans hl2 hl⟩
  · intro st tradePrice
    simp [onTradeDrift]
  · intro st tag tradePrice isLong isShort
    cases tag <;> simp [onTradeDrift]

/-- C6: any fill that leaves the position at dust zeroes `buyPrice`,
`sellPrice`, `highestPrice` and `lowestPrice`, in both strategies and for
every order tag. -/
theorem dust_fill_resets_watermarks :
    (∀ st tag tradePrice isLong isShort,
      onTradeDrift st tag tradePrice true isLong isShort = ⟨0, 0, 0, 0⟩) ∧
    (∀ st tradePrice isLong, onTradeEw st tradePrice true isLong = ⟨0, 0, 0, 0⟩) := by
  constructor
  · intro st tag tradePrice isLong isShort
    cases tag <;> simp [onTradeDrift]
  · intro st tradePrice isLong
    simp [onTradeEw]

/-!
`GeneralOrderExecutor` retry semantics (`CancelOrders` and `SubmitOrders`,
strategy.go lines 1192-1221 of the concatenated source).  The outcomes of the
external exchange calls (`Exchange.CancelOrders`, `BatchPlaceOrder`,
`BatchRetryPlaceOrder`) enter as parameters.
-/

/-- Embedding of `GeneralOrderExecutor.CancelOrders`: `e1`/`e2` are the errors
of the first and second exchange cancel call; the second call is issued only
when the first fails.  Result: the returned error and the number of exchange
calls made. -/
def cancelOrdersGo (e1 e2 : Option String) : Option String × ℕ :=
  match e1 with
  | none => (none, 1)
  | some _ => (e2, 2)

/-- Result triple of `BatchPlaceOrder`: created orders, failed indices, error. -/
structure BatchResult where
  created : List Order
  errIdx : List ℕ
  batchErr : Option String
deriving Repr, DecidableEq

/-- Result of `BatchRetryPlaceOrder` over the failed indices. -/
structure RetryResult where
  created : List Order
  retryErr : Option String
deriving Repr, DecidableEq

/-- Observable outcome of `SubmitOrders`: the returned orders and error, the
number of batch exchange calls, the index set passed to the retry, the orders
added to the order store and the active order book, and the number of
`tradeCollector.Process()` pumps. -/
structure SubmitOutcome where
  created : List Order
  err : Option String
  placeCalls : ℕ
  retriedIdx : List ℕ
  storeAdded : List Order
  activeAdded : List Order
  processCalls : ℕ
deriving Repr, DecidableEq

/-- Go `multierr.Append` on an optional first error. -/
def appendErr : Option String → String → Option String
  | none, e => some e
  | some e1, e => some (e1 ++ "; " ++ e)

/-- Embedding of `GeneralOrderExecutor.SubmitOrders` after `FormatOrders`
succeeded (strategy.go 1201-1221): the retry happens only when `errIdx` is
non-empty and receives exactly `errIdx`; retry successes are appended; the
first call's successes are kept in every case; the collector is pumped once. -/
def submitOrdersGo (r1 : BatchResult) (r2 : RetryResult) : SubmitOutcome :=
  if 0 < r1.errIdx.length then
    match r2.retryErr with
    | some e2 =>
        ⟨r1.created, appendErr r1.batchErr e2, 2, r1.errIdx, r1.created,
          r1.created, 1⟩
    | none =>
        ⟨r1.created ++ r2.created, r1.batchErr, 2, r1.errIdx,
          r1.created ++ r2.created, r1.created ++ r2.created, 1⟩
  else ⟨r1.created, r1.batchErr, 1, [], r1.created, r1.created, 1⟩

/-- C7: `CancelOrders` re-invokes the exchange only when the first call fails
and returns the second error; `SubmitOrders` makes at most two exchange batch
calls, retries exactly the failed index subset, pumps the trade collector
once, and keeps every order accepted by the first call in the order store and
the active order book whatever the retry outcome. -/
theorem executor_retries_once_spec :
    (∀ e2 : Option String, cancelOrdersGo none e2 = (none, 1)) ∧
    (∀ (e1 : String) (e2 : Option String), cancelOrdersGo (some e1) e2 = (e2, 2)) ∧
    (∀ (r1 : BatchResult) (r2 : RetryResult),
      (submitOrdersGo r1 r2).placeCalls ≤ 2 ∧
      (submitOrdersGo r1 r2).retriedIdx =
        (if 0 < r1.errIdx.length then r1.errIdx else []) ∧
      (submitOrdersGo r1 r2).processCalls = 1 ∧
      ∀ o ∈ r1.created, o ∈ (submitOrdersGo r1 r2).storeAdded ∧
        o ∈ (submitOrdersGo r1 r2).activeAdded) := by
  refine ⟨fun e2 => rfl, fun e1 e2 => rfl, fun r1 r2 => ?_⟩
  rcases r2 with ⟨c2, re⟩
  by_cases h : 0 < r1.errIdx.length <;> cases re <;>
    simp [submitOrdersGo, h, List.mem_append] <;>
    exact fun o ho => Or.inl ho

/-- Witness for C7: a first-call success survives a failed retry in the order
store. -/
theorem executor_retries_once_spec_witness :
    (⟨1, Side.buy, 100, OrderStatus.statusNew⟩ : Order) ∈
      (submitOrdersGo ⟨[⟨1, Side.buy, 100, OrderStatus.statusNew⟩], [2],
        some "e1"⟩ ⟨[], some "e2"⟩).storeAdded :=
  ((executor_retries_once_spec.2.2
    ⟨[⟨1, Side.buy, 100, OrderStatus.statusNew⟩], [2], some "e1"⟩
    ⟨[], some "e2"⟩).2.2.2
    ⟨1, Side.buy, 100, OrderStatus.statusNew⟩ (by simp)).1

/-!
Pending-order-age map across fill events (claim C8).  The drift OnTrade
callback (strategy.go 861-926) updates position and watermarks but never
references `orderPendingCounter`; the source itself carries the comment
`TODO: clean orderPendingCounter on cancel/trade` (strategy.go 291).
-/

/-- Fill-event transition on watermarks together with the pending-order-age
map: the map passes through unchanged because the callback does not touch it. -/
def onTradeDriftFull (st : PriceState) (pc : List (ℕ × ℤ)) (tag : Tag)
    (tradePrice : ℚ) (isDust isLong isShort : Bool) :
    PriceState × List (ℕ × ℤ) :=
  (onTradeDrift st tag tradePrice isDust isLong isShort, pc)

/-- C8 (code bug): a fill that takes order 42 to a terminal status leaves its
`orderPendingCounter` entry in place — the fill path deletes nothing (only the
`smartCancel` cancel paths delete entries), so the map retains entries for
orders that are no longer outstanding. -/
theorem fill_leaves_pending_counter_entry :
    (onTradeDriftFull ⟨0, 0, 0, 0⟩ [(42, 5)] Tag.long 100 false true false).2 =
      [(42, 5)] ∧
    lookupCounter (onTradeDriftFull ⟨0, 0, 0, 0⟩ [(42, 5)] Tag.long 100
      false true false).2 42 = 5 ∧
    (∀ (st : PriceState) (pc : List (ℕ × ℤ)) (tag : Tag) (tradePrice : ℚ)
      (isDust isLong isShort : Bool),
      (onTradeDriftFull st pc tag tradePrice isDust isLong isShort).2 = pc) :=
  ⟨rfl, by simp [onTradeDriftFull, lookupCounter],
   fun st pc tag tradePrice isDust isLong isShort => rfl⟩

/-!
Bar-close order flow (claim C9).  The handlers' order actions are abstracted
as action traces: `cancelAll ok` is a `GracefulCancel` call with its outcome
(the handler returns early on failure), `cancelSome n` is the elliottwave
`smartCancel` pass cancelling `n` resting orders individually, `submitClose`
is the market order of `ClosePosition` (not a resting entry order), and
`submitEntry ok` is the single-order `SubmitOrders` call of an entry block
with its outcome.  Early returns before the decision section (warm-up, status
checks, balance lookups) leave the book untouched and correspond to the
all-false flags.
-/

/-- Order actions of a bar-close handler. -/
inductive Act
  | cancelAll (ok : Bool)
  | cancelSome (n : ℕ)
  | submitClose
  | submitEntry (ok : Bool)
deriving Repr, DecidableEq

/-- Number of resting entry orders after an action. -/
def applyAct (book : ℕ) : Act → ℕ
  | Act.cancelAll true => 0
  | Act.cancelAll false => book
  | Act.cancelSome n => book - n
  | Act.submitClose => book
  | Act.submitEntry true => book + 1
  | Act.submitEntry false => book

/-- Book evolution along a trace. -/
def runActs (book : ℕ) (acts : List Act) : ℕ :=
  acts.foldl applyAct book

/-- Entry block shared by both klineHandlers (drift strategy.go 715-798,
elliottwave part_000 487-556): `GracefulCancel` first (early return on
failure), then the dust/balance check (return without submitting), then one
single-order limit `SubmitOrders`. -/
def entryActs (cOk dust sOk : Bool) : List Act :=
  if cOk then
    Act.cancelAll true :: (if dust then [] else [Act.submitEntry sOk])
  else [Act.cancelAll false]

/-- Entry decision phase: the long block runs first and always returns, so the
short block runs only when the long condition is false. -/
def entryPhase (l s c2 c3 dl ds sl ss : Bool) : List Act :=
  if l then entryActs c2 dl sl
  else if s then entryActs c3 ds ss
  else []

/-- Order-action trace of the drift `klineHandler` (strategy.go 706-799):
exit block (cancel all, early return on failure, market close) falling
through into the entry phase. -/
def driftKlineActs (e l s c1 c2 c3 dl ds sl ss : Bool) : List Act :=
  if e then
    if c1 then
      Act.cancelAll true :: Act.submitClose :: entryPhase l s c2 c3 dl ds sl ss
    else [Act.cancelAll false]
  else entryPhase l s c2 c3 dl ds sl ss

/-- Order-action trace of the elliottwave `klineHandler` (part_000 430-557):
a `smartCancel` pass first, then the same exit-then-entry structure. -/
def ewKlineActs (k : ℕ) (e l s c1 c2 c3 dl ds sl ss : Bool) : List Act :=
  Act.cancelSome k :: driftKlineActs e l s c1 c2 c3 dl ds sl ss

/-- Trace predicate: every entry submission is immediately preceded by a
successful cancel-all, so it is placed on an empty book. -/
def entrySubmitsClean : List Act → Bool
  | [] => true
  | Act.cancelAll true :: Act.submitEntry _ :: rest => entrySubmitsClean rest
  | Act.submitEntry _ :: _ => false
  | _ :: rest => entrySubmitsClean rest

/-- Number of entry submissions in a trace. -/
def countEntrySubmits (acts : List Act) : ℕ :=
  acts.countP (fun a => match a with | Act.submitEntry _ => true | _ => false)

lemma runActs_entryActs_le (book : ℕ) (hb : book ≤ 1) (cOk dust sOk : Bool) :
    runActs book (entryActs cOk dust sOk) ≤ 1 := by
  cases cOk <;> cases dust <;> cases sOk <;>
    simp [entryActs, runActs, applyAct] <;> omega

lemma runActs_entryPhase_le (book : ℕ) (hb : book ≤ 1)
    (l s c2 c3 dl ds sl ss : Bool) :
    runActs book (entryPhase l s c2 c3 dl ds sl ss) ≤ 1 := by
  unfold entryPhase
  cases l
  · cases s
    · simpa [runActs] using hb
    · simpa using runActs_entryActs_le book hb c3 ds ss
  · simpa using runActs_entryActs_le book hb c2 dl sl

lemma runActs_driftKline_le (book : ℕ) (hb : book ≤ 1)
    (e l s c1 c2 c3 dl ds sl ss : Bool) :
    runActs book (driftKlineActs e l s c1 c2 c3 dl ds sl ss) ≤ 1 := by
  cases e <;> cases c1 <;>
    simp [driftKlineActs, runActs, applyAct] <;>
    first
      | exact runActs_entryPhase_le book hb l s c2 c3 dl ds sl ss
      | exact hb
      | exact runActs_entryPhase_le 0 (by omega) l s c2 c3 dl ds sl ss

lemma runActs_ewKline_le (book : ℕ) (hb : book ≤ 1) (k : ℕ)
    (e l s c1 c2 c3 dl ds sl ss : Bool) :
    runActs book (ewKlineActs k e l s c1 c2 c3 dl ds sl ss) ≤ 1 := by
  have h := runActs_driftKline_le (book - k) (by omega) e l s c1 c2 c3 dl ds sl ss
  simpa [ewKlineActs, runActs, applyAct] using h

lemma entrySubmitsClean_entryActs (cOk dust sOk : Bool) :
    entrySubmitsClean (entryActs cOk dust sOk) = true := by
  cases cOk <;> cases dust <;> cases sOk <;> rfl

lemma entrySubmitsClean_entryPhase (l s c2 c3 dl ds sl ss : Bool) :
    entrySubmitsClean (entryPhase l s c2 c3 dl ds sl ss) = true := by
  unfold entryPhase
  cases l
  · cases s
    · rfl
    · exact entrySubmitsClean_entryActs c3 ds ss
  · exact entrySubmitsClean_entryActs c2 dl sl

lemma entrySubmitsClean_exit_prefix (rest : List Act) :
    entrySubmitsClean (Act.cancelAll true :: Act.submitClose :: rest) =
      entrySubmitsClean rest := rfl

lemma entrySubmitsClean_driftKline (e l s c1 c2 c3 dl ds sl ss : Bool) :
    entrySubmitsClean (driftKlineActs e l s c1 c2 c3 dl ds sl ss) = true := by
  unfold driftKlineActs
  cases e
  · exact entrySubmitsClean_entryPhase l s c2 c3 dl ds sl ss
  · cases c1
    · rfl
    · rw [if_pos rfl, if_pos rfl, entrySubmitsClean_exit_prefix]
      exact entrySubmitsClean_entryPhase l s c2 c3 dl ds sl ss

lemma entrySubmitsClean_ewKline (k : ℕ) (e l s c1 c2 c3 dl ds sl ss : Bool) :
    entrySubmitsClean (ewKlineActs k e l s c1 c2 c3 dl ds sl ss) = true :=
  entrySubmitsClean_driftKline e l s c1 c2 c3 dl ds sl ss

lemma countEntrySubmits_entryActs_le (cOk dust sOk : Bool) :
    countEntrySubmits (entryActs cOk dust sOk) ≤ 1 := by
  cases cOk <;> cases dust <;> cases sOk <;> decide

lemma countEntrySubmits_entryPhase_le (l s c2 c3 dl ds sl ss : Bool) :
    countEntrySubmits (entryPhase l s c2 c3 dl ds sl ss) ≤ 1 := by
  unfold entryPhase
  cases l
  · cases s
    · exact Nat.zero_le 1
    · exact countEntrySubmits_entryActs_le c3 ds ss
  · exact countEntrySubmits_entryActs_le c2 dl sl

lemma countEntrySubmits_driftKline_le (e l s c1 c2 c3 dl ds sl ss : Bool) :
    countEntrySubmits (driftKlineActs e l s c1 c2 c3 dl ds sl ss) ≤ 1 := by
  unfold driftKlineActs
  cases e
  · exact countEntrySubmits_entryPhase_le l s c2 c3 dl ds sl ss
  · cases c1
    · exact Nat.zero_le 1
    · rw [if_pos rfl, if_pos rfl]
      have h : countEntrySubmits (Act.cancelAll true :: Act.submitClose ::
          entryPhase l s c2 c3 dl ds sl ss) =
          countEntrySubmits (entryPhase l s c2 c3 dl ds sl ss) := by
        simp [countEntrySubmits]
      rw [h]
      exact countEntrySubmits_entryPhase_le l s c2 c3 dl ds sl ss

lemma countEntrySubmits_ewKline_le (k : ℕ) (e l s c1 c2 c3 dl ds sl ss : Bool) :
    countEntrySubmits (ewKlineActs k e l s c1 c2 c3 dl ds sl ss) ≤ 1 := by
  have h : countEntrySubmits (ewKlineActs k e l s c1 c2 c3 dl ds sl ss) =
      countEntrySubmits (driftKlineActs e l s c1 c2 c3 dl ds sl ss) := by
    simp [ewKlineActs, countEntrySubmits]
  rw [h]
  exact countEntrySubmits_driftKline_le e l s c1 c2 c3 dl ds sl ss

/-- C9: in the bar-close domain both klineHandlers preserve "at most one
resting entry order": starting from a book with at most one resting entry
order, the book ends with at most one; every entry submission in every trace
is immediately preceded by a successful cancel-all (so it is placed on an
empty book) and is a single limit order; and each handler invocation submits
at most one entry order. -/
theorem single_entry_order_spec :
    (∀ book : ℕ, book ≤ 1 → ∀ e l s c1 c2 c3 dl ds sl ss : Bool,
      runActs book (driftKlineActs e l s c1 c2 c3 dl ds sl ss) ≤ 1) ∧
    (∀ book k : ℕ, book ≤ 1 → ∀ e l s c1 c2 c3 dl ds sl ss : Bool,
      runActs book (ewKlineActs k e l s c1 c2 c3 dl ds sl ss) ≤ 1) ∧
    (∀ e l s c1 c2 c3 dl ds sl ss : Bool,
      entrySubmitsClean (driftKlineActs e l s c1 c2 c3 dl ds sl ss) = true ∧
      countEntrySubmits (driftKlineActs e l s c1 c2 c3 dl ds sl ss) ≤ 1) ∧
    (∀ (k : ℕ) (e l s c1 c2 c3 dl ds sl ss : Bool),
      entrySubmitsClean (ewKlineActs k e l s c1 c2 c3 dl ds sl ss) = true ∧
      countEntrySubmits (ewKlineActs k e l s c1 c2 c3 dl ds sl ss) ≤ 1) :=
  ⟨fun book hb e l s c1 c2 c3 dl ds sl ss =>
    runActs_driftKline_le book hb e l s c1 c2 c3 dl ds sl ss,
   fun book k hb e l s c1 c2 c3 dl ds sl ss =>
    runActs_ewKline_le book hb k e l s c1 c2 c3 dl ds sl ss,
   fun e l s c1 c2 c3 dl ds sl ss =>
    ⟨entrySubmitsClean_driftKline e l s c1 c2 c3 dl ds sl ss,
     countEntrySubmits_driftKline_le e l s c1 c2 c3 dl ds sl ss⟩,
   fun k e l s c1 c2 c3 dl ds sl ss =>
    ⟨entrySubmitsClean_ewKline k e l s c1 c2 c3 dl ds sl ss,
     countEntrySubmits_ewKline_le k e l s c1 c2 c3 dl ds sl ss⟩⟩

/-- Witness for C9: a bar with one resting entry order, a successful
cancel-all and a successful long entry leaves exactly at most one order. -/
theorem single_entry_order_spec_witness :
    (1 : ℕ) ≤ 1 ∧
    runActs 1 (driftKlineActs false true false true true true false false
      true true) ≤ 1 :=
  ⟨le_refl 1,
   single_entry_order_spec.1 1 (le_refl 1) false true false true true true
     false false true true⟩

/-!
`GracefulCancel` idempotence (claim C10).
-/

/-- Observable outcome of `GracefulCancelActiveOrderBook`: the number of
orders left in the active book, whether an error was returned, and how many
exchange cancel calls were made. -/
structure CancelOutcome where
  numOrders : ℕ
  errored : Bool
  exchangeCalls : ℕ
deriving Repr, DecidableEq

/-- Embedding of `GeneralOrderExecutor.GracefulCancelActiveOrderBook`
(strategy.go 1332-1346; `GracefulCancel` at 1362-1365 forwards to it on the
active maker orders): early `nil` return without exchange contact when the
book is empty, otherwise one `ActiveOrderBook.GracefulCancel` call retried
once on failure.  Modelled from the spec: a successful cancel removes the
cancelled orders from the ledger ("on success removes the corresponding
Ledger/PendingOrderAge entries") — that implementation is not part of the
analysed sources. -/
def gracefulCancelGo (numOrders : ℕ) (ok1 ok2 : Bool) : CancelOutcome :=
  if numOrders = 0 then ⟨0, false, 0⟩
  else if ok1 then ⟨0, false, 1⟩
  else if ok2 then ⟨0, false, 2⟩
  else ⟨numOrders, true, 2⟩

/-- C10: after a first `GracefulCancel` call returns `nil`, a second call with
no intervening state change returns `nil` immediately, makes no exchange
call, and leaves an empty book; the first call itself contacted the exchange
at most twice. -/
theorem gracefulCancel_idempotent (numOrders : ℕ) (ok1 ok2 ok1b ok2b : Bool)
    (h : (gracefulCancelGo numOrders ok1 ok2).errored = false) :
    gracefulCancelGo (gracefulCancelGo numOrders ok1 ok2).numOrders ok1b ok2b =
      ⟨0, false, 0⟩ ∧
    (gracefulCancelGo numOrders ok1 ok2).exchangeCalls ≤ 2 := by
  unfold gracefulCancelGo at h ⊢
  by_cases h0 : numOrders = 0 <;> cases ok1 <;> cases ok2 <;> simp_all

/-- Witness for C10: one resting order, first cancel call succeeds. -/
theorem gracefulCancel_idempotent_witness :
    (gracefulCancelGo 1 true false).errored = false ∧
    (gracefulCancelGo (gracefulCancelGo 1 true false).numOrders true true =
      ⟨0, false, 0⟩ ∧
    (gracefulCancelGo 1 true false).exchangeCalls ≤ 2) :=
  ⟨by simp [gracefulCancelGo],
   gracefulCancel_idempotent 1 true false true true (by simp [gracefulCancelGo])⟩

end BbgoModel
